import Mathlib

/-!
# Verification of `nvtabular/ops.py` (chunk-wise statistics and transform operators)

Shallow embedding of the operator module: Python dictionaries keyed by column
name become insertion-ordered association lists over `String`; `cudf` column
data becomes `List (Option ℚ)` (`none` is a missing value / null); exact
rational arithmetic stands in for floating point; code that can raise a Python
exception returns `Except String _`.
-/

/-- Association-list lookup (Python `d[k]` / `k in d`), first match wins. -/
def alookup {β : Type} : List (String × β) → String → Option β
  | [], _ => none
  | (k', v) :: t, k => if k' = k then some v else alookup t k

/-- Association-list store with Python `dict` semantics: an existing key is
updated in place (insertion order kept), a new key is appended at the end. -/
def aset {β : Type} : List (String × β) → String → β → List (String × β)
  | [], k, v => [(k, v)]
  | (k', v') :: t, k, v => if k' = k then (k, v) :: t else (k', v') :: aset t k v

/-- Append one element to the list stored under `k` (creating `[v]` if the key
is new), as in `if col not in d: d[col] = []` followed by `d[col].append(v)`. -/
def aappend {β : Type} (l : List (String × List β)) (k : String) (v : β) :
    List (String × List β) :=
  aset l k (((alookup l k).getD []) ++ [v])

@[simp] theorem alookup_nil {β : Type} (k : String) : alookup ([] : List (String × β)) k = none := rfl

@[simp] theorem alookup_cons {β : Type} (k' k : String) (v : β) (t : List (String × β)) :
    alookup ((k', v) :: t) k = if k' = k then some v else alookup t k := rfl

@[simp] theorem alookup_aset_self {β : Type} (l : List (String × β)) (k : String) (v : β) :
    alookup (aset l k v) k = some v := by
  induction l with
  | nil => simp [aset]
  | cons p t ih =>
    obtain ⟨k', v'⟩ := p
    by_cases h : k' = k
    · simp [aset, h]
    · simp [aset, h, ih]

theorem alookup_aset_ne {β : Type} (l : List (String × β)) (k k' : String) (v : β)
    (h : k' ≠ k) : alookup (aset l k v) k' = alookup l k' := by
  have hk : ¬k = k' := fun hh => h (Eq.symm hh)
  induction l with
  | nil => simp [aset, hk]
  | cons p t ih =>
    obtain ⟨k₀, v₀⟩ := p
    by_cases h0 : k₀ = k
    · subst h0
      simp [aset, hk]
    · simp only [aset, if_neg h0, alookup_cons, ih]

/-- `series.dropna()`: drop the missing values, keeping order. -/
def dropna {α : Type} (c : List (Option α)) : List α := c.filterMap id

/-- `series.mean()` (cudf skips nulls; here applied to the valid values). -/
def seriesMean (l : List ℚ) : ℚ := l.sum / (l.length : ℚ)

/-- `series.var()` (cudf default `ddof=1`: sample variance over valid values). -/
def seriesVar (l : List ℚ) : ℚ :=
  (l.map (fun x => (x - seriesMean l) ^ 2)).sum / ((l.length : ℚ) - 1)

/-- One chunk (`cudf.DataFrame`): its row count `len(gdf)` and its columns. -/
structure GFrame where
  nrows : ℕ
  data : String → List (Option ℚ)

/-- Per-column running state of `Moments` (`counts/means/varis/stds[col]`). -/
structure MEntry where
  counts : ℚ
  means : ℚ
  varis : ℚ
  stds : ℚ
deriving DecidableEq, Repr

/-- The zero initialisation performed on first sight of a column. -/
def MEntry.init : MEntry := ⟨0, 0, 0, 0⟩

/-- The body of the `for col in cols` loop of `Moments.apply_op`. -/
def Moments.apply_col (g : GFrame) (s : List (String × MEntry)) (col : String) :
    List (String × MEntry) :=
  let e := (alookup s col).getD MEntry.init
  let n1 := e.counts
  let n2 : ℚ := (g.nrows : ℚ)
  let v1 := e.varis
  let v2 := seriesVar (dropna (g.data col))
  let m1 := e.means
  let m2 := seriesMean (dropna (g.data col))
  let counts' := n1 + n2
  let means' := (m1 * n1 + m2 * n2) / counts'
  let t1 := n1 * v1
  let t2 := n2 * v2
  let t3 := n1 * ((m1 - means') ^ 2)
  let t4 := n2 * ((m2 - means') ^ 2)
  let t5 := n1 + n2
  aset s col ⟨counts', means', (t1 + t2 + t3 + t4) / t5, e.stds⟩

/-- `Moments.apply_op`: absorb one chunk for every target column. -/
def Moments.apply_op (cols : List String) (s : List (String × MEntry)) (g : GFrame) :
    List (String × MEntry) :=
  cols.foldl (Moments.apply_col g) s

/-- Finished `Moments` statistics: `read_fin` turns the variance into a std. -/
structure MFinal where
  counts : ℚ
  means : ℚ
  varis : ℚ
  stds : ℝ

/-- `Moments.read_fin`: `stds[col] = sqrt(varis[col])` for every recorded column. -/
noncomputable def Moments.read_fin (s : List (String × MEntry)) : List (String × MFinal) :=
  s.map (fun p => (p.1, ⟨p.2.counts, p.2.means, p.2.varis, Real.sqrt p.2.varis⟩))

/-- Accumulate a whole sequence of chunks from a fresh `Moments` instance. -/
def Moments.run (cols : List String) (gs : List GFrame) : List (String × MEntry) :=
  gs.foldl (Moments.apply_op cols) []

/-- Modelled from the spec: Chan et al.'s merge of an aggregate
`(n1, m1, v1)` with a chunk aggregate `(n2, m2, v2)`, stated exactly with the
spec's formulas, for comparison with the code's update. -/
def chanMergeSpec (n1 m1 v1 n2 m2 v2 : ℚ) : ℚ × ℚ × ℚ :=
  let mean := (m1 * n1 + m2 * n2) / (n1 + n2)
  (n1 + n2, mean,
    (n1 * v1 + n2 * v2 + n1 * (m1 - mean) ^ 2 + n2 * (m2 - mean) ^ 2) / (n1 + n2))

theorem alookup_map_snd {β γ : Type} (f : β → γ) (s : List (String × β)) (k : String) :
    alookup (s.map (fun p => (p.1, f p.2))) k = (alookup s k).map f := by
  induction s with
  | nil => rfl
  | cons p t ih =>
    obtain ⟨k', v⟩ := p
    by_cases h : k' = k <;> simp [h, ih]

theorem alookup_read_fin (s : List (String × MEntry)) (k : String) :
    alookup (Moments.read_fin s) k =
      (alookup s k).map (fun e => MFinal.mk e.counts e.means e.varis (Real.sqrt e.varis)) := by
  induction s with
  | nil => rfl
  | cons p t ih =>
    obtain ⟨k', v⟩ := p
    by_cases h : k' = k
    · simp [Moments.read_fin, h, alookup_cons]
    · simp only [Moments.read_fin, List.map_cons, alookup_cons, if_neg h]
      simpa [Moments.read_fin] using ih

/-- C1: for every column and any prior accumulated aggregate, absorbing a chunk
updates the column's `(count, mean, variance)` exactly by Chan et al.'s merge of
the prior `(n1, m1, v1)` with the chunk's `(n2, m2, v2)`, and `read_fin` sets
the column's std to the square root of its variance. -/
theorem moments_chan_merge_correct (g : GFrame) (s : List (String × MEntry)) (col : String) :
    (alookup (Moments.apply_col g s col) col =
      some ⟨(chanMergeSpec ((alookup s col).getD MEntry.init).counts
               ((alookup s col).getD MEntry.init).means
               ((alookup s col).getD MEntry.init).varis
               ((g.nrows : ℚ)) (seriesMean (dropna (g.data col)))
               (seriesVar (dropna (g.data col)))).1,
            (chanMergeSpec ((alookup s col).getD MEntry.init).counts
               ((alookup s col).getD MEntry.init).means
               ((alookup s col).getD MEntry.init).varis
               ((g.nrows : ℚ)) (seriesMean (dropna (g.data col)))
               (seriesVar (dropna (g.data col)))).2.1,
            (chanMergeSpec ((alookup s col).getD MEntry.init).counts
               ((alookup s col).getD MEntry.init).means
               ((alookup s col).getD MEntry.init).varis
               ((g.nrows : ℚ)) (seriesMean (dropna (g.data col)))
               (seriesVar (dropna (g.data col)))).2.2,
            ((alookup s col).getD MEntry.init).stds⟩)
    ∧ ∀ (s' : List (String × MEntry)) (c' : String),
        alookup (Moments.read_fin s') c' =
          (alookup s' c').map (fun e => ⟨e.counts, e.means, e.varis, Real.sqrt e.varis⟩) := by
  constructor
  · simp only [Moments.apply_col, chanMergeSpec, alookup_aset_self]
  · intro s' c'
    exact alookup_read_fin s' c'

/-- A single-column chunk holding the values `xs` (no missing values). -/
def gfOf (xs : List ℚ) : GFrame := ⟨xs.length, fun _ => xs.map some⟩

/-- A chunk with zero rows. -/
def gfEmpty : GFrame := ⟨0, fun _ => []⟩

/-- C2: feeding the same values `[0, 0, 2, 2]` as one chunk and as two equal
chunks `[0, 0]`, `[2, 2]` leaves different accumulated variances (`4/3` versus
`1`) under exact arithmetic: the chunk variance fed into the merge is the
`ddof = 1` sample variance while the merge divides by `n1 + n2`, so the
finished statistics depend on the chunking. -/
theorem moments_partition_dependent :
    (alookup (Moments.run ["x"] [gfOf [0, 0, 2, 2]]) "x").map MEntry.varis =
        some (4 / 3 : ℚ)
    ∧ (alookup (Moments.run ["x"] [gfOf [0, 0], gfOf [2, 2]]) "x").map MEntry.varis =
        some (1 : ℚ)
    ∧ (4 / 3 : ℚ) ≠ 1 := by
  refine ⟨?_, ?_, by norm_num⟩ <;>
    norm_num [Moments.run, Moments.apply_op, Moments.apply_col, gfOf, dropna, seriesMean,
      seriesVar, alookup, aset, List.foldl, List.filterMap, MEntry.init]

/-- C3: after accumulating a single zero-row chunk, the column is not absent:
it is recorded with total count `0`, and `read_fin` still publishes an entry
for it (in the exact model the `0/0` mean and variance are `0`; in the float
code they are `NaN`). -/
theorem moments_zero_count_entry_present :
    alookup (Moments.run ["x"] [gfEmpty]) "x" = some ⟨0, 0, 0, 0⟩
    ∧ alookup (Moments.read_fin (Moments.run ["x"] [gfEmpty])) "x" =
        some ⟨0, 0, 0, (0 : ℝ)⟩ := by
  have h : alookup (Moments.run ["x"] [gfEmpty]) "x" = some ⟨0, 0, 0, 0⟩ := by
    norm_num [Moments.run, Moments.apply_op, Moments.apply_col, gfEmpty, dropna, seriesMean,
      seriesVar, alookup, aset, List.foldl, List.filterMap, MEntry.init]
  refine ⟨h, ?_⟩
  rw [alookup_read_fin, h]
  simp [Real.sqrt_zero]

/-- C10: when the chunk's column holds one value slot per row, absorbing the
chunk increments the column's count by the chunk's total row count — the length
of the whole column including missing entries — while the chunk mean and
variance merged in are computed over the non-missing (`dropna`) values only. -/
theorem moments_counts_include_missing (g : GFrame) (s : List (String × MEntry)) (col : String)
    (h : (g.data col).length = g.nrows) :
    alookup (Moments.apply_col g s col) col =
      some ⟨((alookup s col).getD MEntry.init).counts + (((g.data col).length : ℕ) : ℚ),
            (chanMergeSpec ((alookup s col).getD MEntry.init).counts
               ((alookup s col).getD MEntry.init).means
               ((alookup s col).getD MEntry.init).varis
               ((((g.data col).length : ℕ) : ℚ)) (seriesMean (dropna (g.data col)))
               (seriesVar (dropna (g.data col)))).2.1,
            (chanMergeSpec ((alookup s col).getD MEntry.init).counts
               ((alookup s col).getD MEntry.init).means
               ((alookup s col).getD MEntry.init).varis
               ((((g.data col).length : ℕ) : ℚ)) (seriesMean (dropna (g.data col)))
               (seriesVar (dropna (g.data col)))).2.2,
            ((alookup s col).getD MEntry.init).stds⟩ := by
  rw [h]
  simp only [Moments.apply_col, chanMergeSpec, alookup_aset_self]

/-- A concrete chunk with 3 rows of which one is missing in column `x`. -/
def gfMixed : GFrame := ⟨3, fun _ => [some 1, none, some 3]⟩

/-- Witness for C10: on the chunk `[1, missing, 3]` the count increments by the
full row count `3` although only `2` values are valid; mean `2` and variance
`2` come from the valid values alone. -/
theorem moments_counts_include_missing_witness :
    alookup (Moments.apply_col gfMixed [] "x") "x" = some ⟨3, 2, 2, 0⟩
    ∧ (dropna (gfMixed.data "x")).length = 2 := by
  have h := moments_counts_include_missing gfMixed [] "x" rfl
  refine ⟨?_, by norm_num [dropna, gfMixed, List.filterMap]⟩
  rw [h]
  norm_num [chanMergeSpec, seriesMean, seriesVar, dropna, gfMixed, MEntry.init, alookup,
    List.filterMap]

/-- Chunk minimum for an object-dtype column, as Python's
`min(gdf_col.tolist())`: `none` when the list is empty (where Python raises
`ValueError: min() arg is an empty sequence`). -/
def listMin {α : Type} [LinearOrder α] : List α → Option α
  | [] => none
  | x :: xs => some (xs.foldl min x)

/-- Chunk maximum, as Python's `max(gdf_col.tolist())`. -/
def listMax {α : Type} [LinearOrder α] : List α → Option α
  | [] => none
  | x :: xs => some (xs.foldl max x)

/-- Running state of `MinMax`: the per-column lists of chunk minima and maxima. -/
structure MinMaxState (α : Type) where
  batch_mins : List (String × List α)
  batch_maxs : List (String × List α)

def MinMaxState.empty {α : Type} : MinMaxState α := ⟨[], []⟩

/-- The body of the `for col in cols` loop of `MinMax.apply_op` (object-dtype
branch: host list plus Python `min`/`max`, which raise on an empty sequence). -/
def MinMax.apply_col {α : Type} [LinearOrder α] (g : String → List (Option α))
    (s : MinMaxState α) (col : String) : Except String (MinMaxState α) :=
  match listMin (dropna (g col)), listMax (dropna (g col)) with
  | some mn, some mx =>
      .ok ⟨aappend s.batch_mins col mn, aappend s.batch_maxs col mx⟩
  | _, _ => .error ("ValueError")

/-- `MinMax.apply_op`: record chunk min and max for every target column. -/
def MinMax.apply_op {α : Type} [LinearOrder α] (cols : List String)
    (g : String → List (Option α)) (s : MinMaxState α) : Except String (MinMaxState α) :=
  cols.foldlM (fun s c => MinMax.apply_col g s c) s

/-- `MinMax.read_fin`: the global min (max) per column is the min (max) of the
recorded chunk minima (maxima). -/
def MinMax.read_fin {α : Type} [LinearOrder α] (s : MinMaxState α) :
    List (String × Option α) × List (String × Option α) :=
  (s.batch_mins.map (fun p => (p.1, listMin p.2)),
   s.batch_maxs.map (fun p => (p.1, listMax p.2)))

/-- Counterexample to C4: accumulating a chunk whose column `c` is entirely
missing does not skip the column, it raises: `min(gdf_col.tolist())` is applied
to an empty list. -/
theorem minmax_all_missing_raises_cex :
    MinMax.apply_op ["c"] (fun _ => ([none, none] : List (Option String)))
      MinMaxState.empty = .error ("ValueError") := rfl

/-- C4 (amended): if any target column of a chunk is entirely missing,
`MinMax.apply_op` on that chunk fails with `ValueError` (the object-dtype
branch takes `min`/`max` of an empty host list) instead of skipping the
column. -/
theorem minmax_all_missing_raises {α : Type} [LinearOrder α] (cols : List String)
    (g : String → List (Option α)) (s : MinMaxState α) (col : String)
    (h1 : col ∈ cols) (h2 : dropna (g col) = []) :
    MinMax.apply_op cols g s = .error ("ValueError") := by
  induction cols generalizing s with
  | nil => cases h1
  | cons c t ih =>
    rcases List.mem_cons.mp h1 with hc | hc
    · subst hc
      simp only [MinMax.apply_op, List.foldlM]
      rw [show MinMax.apply_col g s col = .error ("ValueError") from by
        simp [MinMax.apply_col, h2, listMin, listMax]]
      rfl
    · simp only [MinMax.apply_op, List.foldlM]
      cases hsplit : MinMax.apply_col g s c with
      | error e =>
        have he : e = "ValueError" := by
          by_contra hne
          rcases hmn : listMin (dropna (g c)) with _ | mn <;>
            rcases hmx : listMax (dropna (g c)) with _ | mx <;>
            simp [MinMax.apply_col, hmn, hmx] at hsplit <;> exact hne hsplit.symm
        subst he
        rfl
      | ok s' =>
        exact ih s' hc

/-- Witness for C4 (amended): with columns `a` (one valid value) and `c`
(all missing), accumulation of the chunk fails. -/
theorem minmax_all_missing_raises_witness :
    MinMax.apply_op ["a", "c"]
      (fun n => if n = "a" then [some "v"] else ([none] : List (Option String)))
      MinMaxState.empty = .error ("ValueError") := by
  refine minmax_all_missing_raises ["a", "c"] _ MinMaxState.empty "c" (by simp) ?_
  norm_num [dropna, List.filterMap]

/-- `col.sort_values()` for rationals (ascending). -/
def sortQ (l : List ℚ) : List ℚ := List.insertionSort (· ≤ ·) l

/-- Python truthiness of `self.fill` in `if self.fill:` — a configured fill of
`0` (or `None`) is falsy. -/
def truthyFill : Option ℚ → Bool
  | none => false
  | some f => decide (f ≠ 0)

/-- The per-column body of `Median.apply_op`: the recorded representative for
one chunk (`self.fill` if truthy, else the middle of the sorted valid values if
more than one remains, else `0.0`). -/
def Median.chunk_rep (fill : Option ℚ) (c : List (Option ℚ)) : ℚ :=
  let col := sortQ (dropna c)
  if truthyFill fill then fill.getD 0
  else if 1 < col.length then col.getD (col.length / 2) 0
  else 0

/-- `Median.apply_op`: append one representative per target column. -/
def Median.apply_op (fill : Option ℚ) (cols : List String)
    (s : List (String × List ℚ)) (g : String → List (Option ℚ)) :
    List (String × List ℚ) :=
  cols.foldl (fun s name => aappend s name (Median.chunk_rep fill (g name))) s

/-- `Median.read_fin`: sort the collected representatives, take the middle. -/
def Median.read_fin (s : List (String × List ℚ)) : List (String × ℚ) :=
  s.map (fun p => (p.1, (sortQ p.2).getD ((sortQ p.2).length / 2) 0))

/-- Counterexample to C5: with the constant fill value configured as `0`, the
chunk `[1, 2, 3]` records `2` (the sorted middle), not the configured `0`:
`if self.fill:` tests Python truthiness, so a configured `0` is ignored. -/
theorem median_fill_zero_cex :
    Median.chunk_rep (some 0) [some 1, some 2, some 3] = 2 ∧ (2 : ℚ) ≠ 0 := by
  refine ⟨?_, by norm_num⟩
  norm_num [Median.chunk_rep, truthyFill, sortQ, dropna, List.filterMap,
    List.insertionSort, List.orderedInsert]

/-- C5 (amended): per chunk and target column, `Median` records the configured
constant fill value only when it is non-zero (Python truthiness); otherwise,
with missing values dropped and the remainder sorted ascending, the element at
index `len // 2` when more than one valid value remains, otherwise `0.0`;
finalize sorts the collected representatives and takes the element at index
`len // 2`, so the single chunk `[1, 2, 3, 4, 5]` finalizes to `3`. -/
theorem median_spec :
    (∀ (f : ℚ) (c : List (Option ℚ)), f ≠ 0 → Median.chunk_rep (some f) c = f)
    ∧ (∀ (fill : Option ℚ) (c : List (Option ℚ)), truthyFill fill = false →
        1 < (sortQ (dropna c)).length →
        Median.chunk_rep fill c = (sortQ (dropna c)).getD ((sortQ (dropna c)).length / 2) 0)
    ∧ (∀ (fill : Option ℚ) (c : List (Option ℚ)), truthyFill fill = false →
        (sortQ (dropna c)).length ≤ 1 → Median.chunk_rep fill c = 0)
    ∧ (∀ (s : List (String × List ℚ)) (name : String),
        alookup (Median.read_fin s) name =
          (alookup s name).map (fun reps => (sortQ reps).getD ((sortQ reps).length / 2) 0))
    ∧ alookup (Median.read_fin (Median.apply_op none ["x"] []
        (fun _ => [some 1, some 2, some 3, some 4, some 5]))) "x" = some 3 := by
  refine ⟨?_, ?_, ?_, ?_, ?_⟩
  · intro f c hf
    simp [Median.chunk_rep, truthyFill, hf]
  · intro fill c hfill hlen
    simp [Median.chunk_rep, hfill, hlen]
  · intro fill c hfill hlen
    simp [Median.chunk_rep, hfill, Nat.not_lt.mpr hlen]
  · intro s name
    exact alookup_map_snd
      (fun reps => (sortQ reps).getD ((sortQ reps).length / 2) 0) s name
  · norm_num [Median.read_fin, Median.apply_op, Median.chunk_rep, aappend, aset, alookup,
      truthyFill, sortQ, dropna, List.filterMap, List.insertionSort, List.orderedInsert]

/-- Witness for C5 (amended): a non-zero configured fill `7` is recorded even
on an empty chunk; without a fill, `[2, 1]` records sorted middle `2` and the
single-valid-value chunk `[5]` records `0`. -/
theorem median_spec_witness :
    Median.chunk_rep (some 7) [] = 7
    ∧ Median.chunk_rep none [some 2, some 1] = 2
    ∧ Median.chunk_rep none [some 5] = 0 := by
  refine ⟨median_spec.1 7 [] (by norm_num), ?_, ?_⟩
  · have h := median_spec.2.1 none [some 2, some 1] rfl
      (by norm_num [sortQ, dropna, List.filterMap, List.insertionSort, List.orderedInsert])
    rw [h]
    norm_num [sortQ, dropna, List.filterMap, List.insertionSort, List.orderedInsert]
  · exact median_spec.2.2.1 none [some 5] rfl
      (by norm_num [sortQ, dropna, List.filterMap, List.insertionSort, List.orderedInsert])

/-- Python truthiness of `self.columns` in `if self.columns:` — `None` and the
empty list are falsy. -/
def truthyCols : Option (List String) → Bool
  | none => false
  | some l => !l.isEmpty

/-- `Operator.get_columns`: an explicit (truthy) column list wins; otherwise
append the recorded list of every target sub-key present under the group key. -/
def Operator.get_columns (columns : Option (List String))
    (cols_ctx : String → String → Option (List String)) (cols_grp : String)
    (target_cols : List String) : List String :=
  if truthyCols columns then columns.getD []
  else
    target_cols.foldl (fun acc tar =>
      match cols_ctx cols_grp tar with
      | some cs => acc ++ cs
      | none => acc) []

theorem get_columns_foldl_eq (f : String → Option (List String)) (ts : List String)
    (acc : List String) :
    ts.foldl (fun acc tar =>
        match f tar with
        | some cs => acc ++ cs
        | none => acc) acc =
      acc ++ (ts.filter (fun t => (f t).isSome)).flatMap (fun t => (f t).getD []) := by
  induction ts generalizing acc with
  | nil => simp
  | cons t ts ih =>
    cases hf : f t with
    | none => simp [List.foldl_cons, hf, ih]
    | some cs => simp [List.foldl_cons, hf, ih]

/-- C6: with an explicit non-empty column list `get_columns` returns exactly
that list, ignoring the context; otherwise it returns the concatenation, in
target order, of the recorded column lists of exactly the target sub-keys
present under the group key, skipping absent sub-keys, with no deduplication. -/
theorem get_columns_spec :
    (∀ (ctx : String → String → Option (List String)) (grp : String)
        (targets l : List String), l ≠ [] →
        Operator.get_columns (some l) ctx grp targets = l)
    ∧ (∀ (columns : Option (List String)) (ctx : String → String → Option (List String))
        (grp : String) (targets : List String), truthyCols columns = false →
        Operator.get_columns columns ctx grp targets =
          (targets.filter (fun t => (ctx grp t).isSome)).flatMap (fun t => (ctx grp t).getD [])) := by
  constructor
  · intro ctx grp targets l hl
    simp [Operator.get_columns, truthyCols, List.isEmpty_iff, hl]
  · intro columns ctx grp targets hcol
    rw [Operator.get_columns, hcol]
    simpa using get_columns_foldl_eq (fun t => ctx grp t) targets []

/-- A concrete column context for the C6 witness: only sub-key `a` of group
`grp` is recorded. -/
def ctxW : String → String → Option (List String) :=
  fun g t => if g = "grp" ∧ t = "a" then some ["x", "y"] else none

/-- Witness for C6: the explicit list `["c1"]` wins; without one, targets
`["a", "b"]` resolve to `a`'s recorded columns, skipping the absent `b`. -/
theorem get_columns_spec_witness :
    Operator.get_columns (some ["c1"]) ctxW "grp" ["a", "b"] = ["c1"]
    ∧ Operator.get_columns none ctxW "grp" ["a", "b"] = ["x", "y"] := by
  constructor
  · exact get_columns_spec.1 ctxW "grp" ["a", "b"] ["c1"] (by simp)
  · rw [get_columns_spec.2 none ctxW "grp" ["a", "b"] rfl]
    simp [ctxW]

/-- The fields of a `TransformOperator` that `update_columns_ctx` consults. -/
structure TOp where
  id : String
  replace : Bool
  preprocessing : Bool
  default_out : String

/-- The columns context: `groups` is the nested
`columns_ctx[group][operator id] -> column list` dictionary, `final` the
`columns_ctx["final"]["ctx"][group]` list of operator ids. -/
structure ColumnsCtx where
  groups : String → String → Option (List String)
  final : String → List String

/-- Store `columns_ctx[g][k] = v`. -/
def fupd (f : String → String → Option (List String)) (g k : String) (v : List String) :
    String → String → Option (List String) :=
  fun g' k' => if g' = g ∧ k' = k then some v else f g' k'

/-- `TransformOperator.update_columns_ctx`: unconditionally assigns
`columns_ctx[group][self._id]` (the initial `[]` assignment is immediately
overwritten, so only the net effect is modelled), and appends the operator id
to the `final` ledger for non-preprocessing operators. -/
def TransformOperator.update_columns_ctx (op : TOp) (ctx : ColumnsCtx) (input_cols : String)
    (new_cols : List String) (origin_targets : List String) (pro : Bool) : ColumnsCtx :=
  let grp := if pro then input_cols else op.default_out
  if op.replace = true ∧ op.preprocessing = true then
    { ctx with groups := fupd ctx.groups grp op.id origin_targets }
  else
    let ctx' := { ctx with groups := fupd ctx.groups grp op.id new_cols }
    if op.preprocessing = false ∧ op.id ∉ ctx.final grp then
      { ctx' with final := fun g => if g = grp then ctx.final grp ++ [op.id] else ctx.final g }
    else ctx'

/-- A replacing preprocessing transform operator with id `T`. -/
def opT : TOp := ⟨"T", true, true, "continuous"⟩

/-- The empty columns context. -/
def ctx0 : ColumnsCtx := ⟨fun _ _ => none, fun _ => []⟩

/-- Counterexample to C7: a second invocation of the same operator id `T` under
group `g` rewrites the previously recorded produced-column list from `["a"]`
to `["b"]` — updates are not append-only. -/
theorem update_ctx_rewrites_cex :
    (TransformOperator.update_columns_ctx opT ctx0 "g" [] ["a"] true).groups "g" "T"
        = some ["a"]
    ∧ (TransformOperator.update_columns_ctx opT
        (TransformOperator.update_columns_ctx opT ctx0 "g" [] ["a"] true)
        "g" [] ["b"] true).groups "g" "T" = some ["b"]
    ∧ (["b"] : List String) ≠ ["a"] := by
  refine ⟨?_, ?_, by simp⟩ <;>
    simp [TransformOperator.update_columns_ctx, opT, ctx0, fupd]

/-- C7 (amended): an invocation may rewrite the entry stored under its own
operator id, but entries recorded under any other operator id (in any group)
are never rewritten or removed, and the `final` ledger only grows by
appending. -/
theorem update_ctx_preserves_other_ids (op : TOp) (ctx : ColumnsCtx) (input_cols : String)
    (new_cols origin_targets : List String) (pro : Bool) (g k : String) (h : k ≠ op.id) :
    (TransformOperator.update_columns_ctx op ctx input_cols new_cols origin_targets pro).groups g k
        = ctx.groups g k
    ∧ ∃ t, (TransformOperator.update_columns_ctx op ctx input_cols new_cols origin_targets
        pro).final g = ctx.final g ++ t := by
  constructor
  · simp only [TransformOperator.update_columns_ctx]
    split_ifs <;> simp [fupd, h]
  · simp only [TransformOperator.update_columns_ctx]
    set grp := if pro = true then input_cols else op.default_out with hgrp
    split_ifs with h1 h2
    · exact ⟨[], by simp⟩
    · by_cases hg : g = grp
      · subst hg
        exact ⟨[op.id], by simp⟩
      · exact ⟨[], by simp [hg]⟩
    · exact ⟨[], by simp⟩

/-- A context in which a different operator `S` already recorded columns. -/
def ctxS : ColumnsCtx :=
  ⟨fun g k => if g = "g" ∧ k = "S" then some ["s1"] else none, fun _ => []⟩

/-- Witness for C7 (amended): operator `T`'s update leaves the entry recorded
by operator `S` intact and only appends to the `final` ledger. -/
theorem update_ctx_preserves_other_ids_witness :
    (TransformOperator.update_columns_ctx opT ctxS "g" [] ["a"] true).groups "g" "S"
        = some ["s1"]
    ∧ ∃ t, (TransformOperator.update_columns_ctx opT ctxS "g" [] ["a"] true).final "g"
        = ctxS.final "g" ++ t := by
  have h := update_ctx_preserves_other_ids opT ctxS "g" [] ["a"] true "g" "S"
    (by simp [opT])
  exact ⟨h.1.trans (by simp [ctxS]), h.2⟩

theorem string_append_cancel (a b s : String) (h : a ++ s = b ++ s) : a = b := by
  have hd : a.data ++ s.data = b.data ++ s.data := by
    simpa [String.data_append] using congrArg String.data h
  exact String.ext (List.append_cancel_right hd)

/-- The body of the `for name in cont_names` loop of `Normalize.apply_mean_std`:
columns with `stds[name] > 0` get a `name_Normalize` output column holding
`(x - mean) / std`; other columns are skipped. -/
def normStep (means stds : String → ℚ) (g : String → List ℚ)
    (acc : List (String × List ℚ)) (name : String) : List (String × List ℚ) :=
  if 0 < stds name then
    aset acc (name ++ "_Normalize") ((g name).map (fun x => (x - means name) / stds name))
  else acc

/-- `Normalize.apply_mean_std`: build the new frame column by column. -/
def Normalize.apply_mean_std (means stds : String → ℚ) (g : String → List ℚ)
    (cont_names : List String) : List (String × List ℚ) :=
  cont_names.foldl (normStep means stds g) []

theorem norm_lookup_of_no_write (means stds : String → ℚ) (g : String → List ℚ)
    (l : List String) (acc : List (String × List ℚ)) (key : String)
    (h : ∀ n ∈ l, ¬(0 < stds n ∧ n ++ "_Normalize" = key)) :
    alookup (l.foldl (normStep means stds g) acc) key = alookup acc key := by
  induction l generalizing acc with
  | nil => rfl
  | cons n t ih =>
    rw [List.foldl_cons]
    rw [ih _ (fun n' hn' => h n' (List.mem_cons_of_mem n hn'))]
    by_cases hs : 0 < stds n
    · have hk : n ++ "_Normalize" ≠ key := fun hk => h n (List.mem_cons_self n t) ⟨hs, hk⟩
      simp only [normStep, if_pos hs]
      exact alookup_aset_ne _ _ _ _ (fun hh => hk hh.symm)
    · simp [normStep, hs]

theorem norm_lookup_of_mem (means stds : String → ℚ) (g : String → List ℚ)
    (l : List String) (acc : List (String × List ℚ)) (name : String)
    (hmem : name ∈ l) (hs : 0 < stds name) :
    alookup (l.foldl (normStep means stds g) acc) (name ++ "_Normalize") =
      some ((g name).map (fun x => (x - means name) / stds name)) := by
  induction l generalizing acc with
  | nil => cases hmem
  | cons n t ih =>
    rw [List.foldl_cons]
    by_cases ht : name ∈ t
    · exact ih _ ht
    · have hn : n = name := by
        rcases List.mem_cons.mp hmem with hh | hh
        · exact hh.symm
        · exact absurd hh ht
      subst hn
      rw [norm_lookup_of_no_write means stds g t _ _ (fun n' hn' hand => by
        have : n' = n := string_append_cancel n' n ("_Normalize") hand.2
        exact ht (this ▸ hn'))]
      simp [normStep, hs]

/-- C8: for a target column with finalized std `s > 0`, `Normalize` outputs the
new column `name_Normalize` with values `(x - mean) / std`, and the transform
is inverted by `y * s + m`; a target column with std `0` produces no output
column (and no division happens for it). -/
theorem normalize_spec (means stds : String → ℚ) (g : String → List ℚ)
    (cont_names : List String) (name : String) (hmem : name ∈ cont_names) :
    (0 < stds name →
      alookup (Normalize.apply_mean_std means stds g cont_names) (name ++ "_Normalize")
          = some ((g name).map (fun x => (x - means name) / stds name))
      ∧ ∀ x : ℚ, ((x - means name) / stds name) * stds name + means name = x)
    ∧ (stds name = 0 →
      alookup (Normalize.apply_mean_std means stds g cont_names) (name ++ "_Normalize")
          = none) := by
  constructor
  · intro hs
    refine ⟨norm_lookup_of_mem means stds g cont_names [] name hmem hs, ?_⟩
    intro x
    field_simp
  · intro hs
    rw [Normalize.apply_mean_std,
      norm_lookup_of_no_write means stds g cont_names [] _ (fun n hn hand => by
        have : n = name := string_append_cancel n name ("_Normalize") hand.2
        rw [this, hs] at hand
        exact lt_irrefl 0 hand.1)]
    rfl

/-- Stds for the C8 witness: column `a` has std `2`, everything else `0`. -/
def stdsW : String → ℚ := fun n => if n = "a" then 2 else 0

/-- Witness for C8: with mean `1` and std `2` on column `a`, the value `3`
normalizes to `1` and round-trips (`1 * 2 + 1 = 3`); column `b` with std `0`
produces no output column. -/
theorem normalize_spec_witness :
    alookup (Normalize.apply_mean_std (fun _ => 1) stdsW (fun _ => [3]) ["a", "b"])
        ("a" ++ "_Normalize") = some [1]
    ∧ ((3 - 1) / stdsW "a") * stdsW "a" + 1 = (3 : ℚ)
    ∧ alookup (Normalize.apply_mean_std (fun _ => 1) stdsW (fun _ => [3]) ["a", "b"])
        ("b" ++ "_Normalize") = none := by
  have ha := (normalize_spec (fun _ => 1) stdsW (fun _ => [3]) ["a", "b"] "a"
    (by simp)).1 (by decide)
  have hb := (normalize_spec (fun _ => 1) stdsW (fun _ => [3]) ["a", "b"] "b"
    (by simp)).2 (by decide)
  refine ⟨?_, ?_, hb⟩
  · rw [ha.1]
    norm_num [stdsW]
  · simpa using ha.2 3

/-- `gdf[name].isna().sum()` used as a truth value: does the column hold any
missing value. -/
def seriesHasNa (col : List (Option ℚ)) : Bool := col.any (fun v => v.isNone)

/-- `series.fillna(m)`. -/
def fillnaCol (m : ℚ) (col : List (Option ℚ)) : List (Option ℚ) :=
  col.map (fun v => some (v.getD m))

/-- `FillMissing.add_na_indicators`: the code rebinds `gdf` to a fresh empty
`cudf.DataFrame()` before the loop, so `gdf[name].isna()` is evaluated against
that empty frame — a `KeyError` for every non-empty `na_names`. The original
frame `_gdf` is shadowed and never read. Indicator booleans are encoded as
`0/1` rationals. -/
def FillMissing.add_na_indicators (_gdf : List (String × List (Option ℚ)))
    (na_names : List String) : Except String (List (String × List (Option ℚ))) :=
  na_names.foldlM (fun gdf name =>
    match alookup gdf name with
    | some col =>
        .ok (aset gdf (name ++ "_na")
          (col.map (fun v => some (if v.isNone then (1 : ℚ) else 0))))
    | none => .error ("KeyError")) []

/-- `FillMissing.apply_filler`: compute the columns with missing values, add
the indicator columns when `add_col`, fill with the finished medians, and
suffix every output column with the operator id. -/
def FillMissing.apply_filler (add_col : Bool) (medians : String → ℚ)
    (gdf : List (String × List (Option ℚ))) (cont_names : List String) :
    Except String (List (String × List (Option ℚ))) := do
  let na_names := cont_names.filter (fun n => seriesHasNa ((alookup gdf n).getD []))
  let gdf ← if add_col then FillMissing.add_na_indicators gdf na_names else pure gdf
  let gdf := na_names.foldl
    (fun acc c => aset acc c (fillnaCol (medians c) ((alookup acc c).getD []))) gdf
  pure (gdf.map (fun p => (p.1 ++ "_FillMissing", p.2)))

/-- C9: with `add_col = True`, medians finalized, and a chunk whose column `a`
holds `[1, missing]`, `FillMissing` does not emit an `a_na` indicator — it
raises `KeyError`, because `add_na_indicators` reads the column from the
freshly created empty frame. -/
theorem fillmissing_add_col_keyerror :
    FillMissing.apply_filler true (fun _ => 1) [("a", [some 1, none])] ["a"]
      = .error ("KeyError") := rfl
